import Mathlib

/-!
Verification development for the country-votes backend (NestJS service).

The embedding translates the backend services into pure Lean functions:

* `CountriesService` (src/backend/src/countries/countries.service.ts):
  `mapCountryToDetails`, `getAllCountries`, `getCountryByCode`.  The external
  REST-countries HTTP fetches are passed in as explicit arguments
  (`fetchAll`, `fetchAlpha`), and the cache-manager state is an explicit
  association list / `Option` value threaded through the functions.
* `VotesService` (src/backend/src/votes/votes.service.ts):
  `createVote`, `getTopCountries`, `hasVoted`, `getVotesByRegion`,
  `getTotalVotes`.  The MongoDB vote collection is a `List Vote`; the Mongo
  aggregation pipeline of `getTopCountries` is translated step by step
  (group, sort, limit); the cache-manager entry for the ranking is an
  `Option (List CountryDetails)`.
* The `CreateVoteSchema` zod validation
  (src/backend/src/votes/dto/create-vote.dto.ts).

JavaScript strings are Lean `String`s; `toLowerCase`/`toUpperCase` are
modelled on the ASCII fragment (the only code points these claims exercise).
Side effects (storage writes, cache set/del) are made observable as explicit
effect lists returned next to the new state.
-/

namespace CountryVotes

/-- Model of JavaScript `String.prototype.toLowerCase` on a single character,
restricted to ASCII (the simple case mapping used for the email addresses in
this development). -/
def lowerChar (c : Char) : Char :=
  if 65 ≤ c.toNat ∧ c.toNat ≤ 90 then Char.ofNat (c.toNat + 32) else c

/-- Model of JavaScript `String.prototype.toUpperCase` on a single character,
restricted to ASCII. -/
def upperChar (c : Char) : Char :=
  if 97 ≤ c.toNat ∧ c.toNat ≤ 122 then Char.ofNat (c.toNat - 32) else c

/-- Model of `s.toLowerCase()` as used by `VotesService` on emails. -/
def toLowerCase (s : String) : String :=
  String.mk (s.data.map lowerChar)

/-- Model of the zod `.toUpperCase()` transform applied to `countryCode`. -/
def toUpperCase (s : String) : String :=
  String.mk (s.data.map upperChar)

/-- External REST-countries record, from the `Country` interface
(country.interface.ts).  Only the fields read by `mapCountryToDetails` are
kept; `capital` is an optional array and `subregion` an optional string, as
in the TypeScript interface (`capital?: readonly string[]`,
`subregion?: string`). -/
structure Country where
  nameCommon : String
  nameOfficial : String
  cca3 : String
  capital : Option (List String)
  region : String
  subregion : Option String
  flagSvg : String
deriving Repr, DecidableEq

/-- Projection served to callers, from the `CountryDetails` interface:
`capital` and `subregion` are plain (non-optional) strings, `voteCount` is
optional (`voteCount?: number`) and only attached by the ranking path. -/
structure CountryDetails where
  code : String
  name : String
  officialName : String
  capital : String
  region : String
  subregion : String
  flag : String
  voteCount : Option Nat
deriving Repr, DecidableEq

/-- Translation of `CountriesService.mapCountryToDetails`:
`capital: country.capital?.[0] ?? 'N/A'` and
`subregion: country.subregion ?? 'N/A'`. -/
def mapCountryToDetails (country : Country) : CountryDetails :=
  { code := country.cca3
    name := country.nameCommon
    officialName := country.nameOfficial
    capital := (country.capital.bind List.head?).getD "N/A"
    region := country.region
    subregion := country.subregion.getD "N/A"
    flag := country.flagSvg
    voteCount := none }

/-- Result of an external HTTP fetch: `.error` covers a network error, a
non-2xx response or a malformed payload (anything that makes
`firstValueFrom(this.httpService.get(...))` throw); `.ok` carries the parsed
body. -/
def FetchResult (α : Type) : Type := Except Unit α

/-- Lookup in the cache-manager keyspace, modelled as an association list
from keys to cached country details. -/
def cacheGet (cache : List (String × CountryDetails)) (key : String) :
    Option CountryDetails :=
  (cache.find? (fun p => p.1 == key)).map (fun p => p.2)

/-- Model of `cacheManager.set key value`: overwrite the first entry with
that key, or append a fresh entry. -/
def cacheSet (cache : List (String × CountryDetails)) (key : String)
    (value : CountryDetails) : List (String × CountryDetails) :=
  if (cache.find? (fun p => p.1 == key)).isSome then
    cache.map (fun p => if p.1 == key then (p.1, value) else p)
  else
    cache ++ [(key, value)]

/-- Translation of `CountriesService.getAllCountries`.  `cache` is the entry
under `CACHE_KEY_ALL_COUNTRIES`; `fetchAll` is the outcome of the external
listing request.  Returns the response together with the new cache entry.
On a fetch failure the service throws `Error(FAILED_FETCH)` (modelled as
`.error ()`); nothing is cached on that path. -/
def getAllCountries (fetchAll : FetchResult (List Country))
    (cache : Option (List CountryDetails)) :
    FetchResult (List CountryDetails) × Option (List CountryDetails) :=
  match cache with
  | some cached => (.ok cached, some cached)
  | none =>
    match fetchAll with
    | .error _ => (.error (), none)
    | .ok data =>
      let countries := data.map mapCountryToDetails
      (.ok countries, some countries)

/-- Result of `CountriesService.getCountryByCode`: the returned value, the
per-code cache after the call, and whether an external fetch was performed. -/
structure CodeLookup where
  result : Option CountryDetails
  cache : List (String × CountryDetails)
  fetched : Bool
deriving Repr

/-- Translation of `CountriesService.getCountryByCode`.  `fetchAlpha code` is
the outcome of the external `/alpha/{code}` request: `.error ()` when the
request throws, otherwise the response body (a list of matching records).
The code first consults the cache under `country_` ++ code; on a miss it
fetches, returns `none` for an empty match list (without caching), and only
caches after successfully mapping a record.  Any thrown error is caught and
turned into `null` (here `none`), again without caching. -/
def getCountryByCode (fetchAlpha : String → FetchResult (List Country))
    (cache : List (String × CountryDetails)) (code : String) : CodeLookup :=
  match cacheGet cache ("country_" ++ code) with
  | some cached => ⟨some cached, cache, false⟩
  | none =>
    match fetchAlpha code with
    | .error _ => ⟨none, cache, true⟩
    | .ok [] => ⟨none, cache, true⟩
    | .ok (r :: _) =>
      let countryDetails := mapCountryToDetails r
      ⟨some countryDetails, cacheSet cache ("country_" ++ code) countryDetails,
        true⟩

/-- Persisted vote record, from the `Vote` mongoose schema (vote.schema.ts):
`name`, `email` (stored lowercased, unique index), `countryCode`,
`countryName`, `flag`.  The server-assigned timestamps are not needed by the
claims settled here and are omitted. -/
structure Vote where
  name : String
  email : String
  countryCode : String
  countryName : String
  flag : String
deriving Repr, DecidableEq

/-- Validated vote-intake payload (`CreateVoteDto`). -/
structure CreateVoteDto where
  name : String
  email : String
  countryCode : String
  countryName : String
  flag : String
deriving Repr, DecidableEq

/-- Errors surfaced by `VotesService.createVote`:
`conflictAlreadyVoted` is the `ConflictException(MESSAGES.VOTE.ALREADY_VOTED)`
(the spec's `DuplicateVote`); `storageFailure msg` is any other rethrown
storage error. -/
inductive VoteError where
  | conflictAlreadyVoted
  | storageFailure (msg : String)
deriving Repr, DecidableEq

/-- Outcome of the `vote.save()` call against MongoDB: success, a duplicate-key
rejection (`error.code === 11000`, produced by the unique index on `email`),
or any other storage failure. -/
inductive SaveOutcome where
  | ok
  | dupKey
  | otherFailure (msg : String)
deriving Repr, DecidableEq

/-- Observable side effect of a `createVote` call: a Vote Store insert or a
cache-manager `del` on a key. -/
inductive Effect where
  | writeVote (v : Vote)
  | cacheDel (key : String)
deriving Repr, DecidableEq

/-- Mutable state touched by `VotesService`: the MongoDB vote collection and
the cache-manager entry under `top_countries` (the ranking cache). -/
structure VotesState where
  store : List Vote
  topCache : Option (List CountryDetails)
deriving Repr, DecidableEq

/-- Result of a `createVote` call: the response (or thrown error), the state
after the call, and the list of side effects performed, in order. -/
structure CreateResult where
  res : Except VoteError Vote
  state : VotesState
  effects : List Effect
deriving Repr

/-- Translation of `VotesService.createVote`.  The `findOne` duplicate
pre-check runs on the lowercased email; when it finds a vote, a
`ConflictException` is thrown before anything is written.  Otherwise the vote
is built with the lowercased email and saved; `outcome` is what the storage
layer does with that save.  A successful save appends the vote, then deletes
the `top_countries` cache entry.  In the catch block, a duplicate-key error
(`code === 11000`) is re-thrown as the same `ConflictException`; any other
error is rethrown unchanged.  On every failure path no write and no cache
deletion has happened. -/
def createVote (dto : CreateVoteDto) (outcome : SaveOutcome)
    (st : VotesState) : CreateResult :=
  match st.store.find? (fun v => v.email == toLowerCase dto.email) with
  | some _ => ⟨.error .conflictAlreadyVoted, st, []⟩
  | none =>
    let vote : Vote :=
      { name := dto.name
        email := toLowerCase dto.email
        countryCode := dto.countryCode
        countryName := dto.countryName
        flag := dto.flag }
    match outcome with
    | .ok =>
      ⟨.ok vote,
        { store := st.store ++ [vote], topCache := none },
        [.writeVote vote, .cacheDel "top_countries"]⟩
    | .dupKey => ⟨.error .conflictAlreadyVoted, st, []⟩
    | .otherFailure msg => ⟨.error (.storageFailure msg), st, []⟩

/-- Behaviour of the MongoDB unique index on `email` for an insert attempted
against a given collection state: the insert is rejected with a duplicate-key
error exactly when a stored vote already carries the same (normalized)
email. -/
def mongoSave (store : List Vote) (email : String) : SaveOutcome :=
  if store.any (fun w => w.email == email) then .dupKey else .ok

/-- One sequential `createVote` call, with the save outcome determined by the
unique index against the current store. -/
def createVoteRun (dto : CreateVoteDto) (st : VotesState) : CreateResult :=
  createVote dto (mongoSave st.store (toLowerCase dto.email)) st

/-- State reached after an arbitrary sequence of sequential `createVote`
calls. -/
def runVotes (dtos : List CreateVoteDto) (st : VotesState) : VotesState :=
  dtos.foldl (fun s d => (createVoteRun d s).state) st

/-- Translation of `VotesService.hasVoted`: `findOne` on the lowercased
email, coerced to a boolean. -/
def hasVoted (store : List Vote) (email : String) : Bool :=
  (store.find? (fun v => v.email == toLowerCase email)).isSome

/-- Translation of `VotesService.getTotalVotes` (`countDocuments`). -/
def getTotalVotes (store : List Vote) : Nat :=
  store.length

/-- Output row of the `$group` stage of the aggregation in
`getTopCountries` (the `IAggregatedVote` interface): `_id` is the grouped
`countryCode`, `countryName` the group's `$first` name, `voteCount` the
`$sum: 1` count. -/
structure AggregatedVote where
  _id : String
  countryName : String
  voteCount : Nat
deriving Repr, DecidableEq

/-- Distinct values of a list in order of first appearance, skipping values
already seen. -/
def firstOccurAux : List String → List String → List String
  | [], _ => []
  | c :: rest, seen =>
    if c ∈ seen then firstOccurAux rest seen
    else c :: firstOccurAux rest (c :: seen)

/-- Distinct values of a list in order of first appearance: the order in
which the `$group` stage visits the country codes.  MongoDB leaves the group
order unspecified; the embedding fixes the first-appearance order, which is
one admissible schedule. -/
def firstOccur (l : List String) : List String :=
  firstOccurAux l []

/-- Number of votes carrying a given country code (the group's `$sum: 1`). -/
def countVotes (store : List Vote) (code : String) : Nat :=
  (store.filter (fun v => v.countryCode == code)).length

/-- The group's `$first` country name: the `countryName` of the first vote
with that code. -/
def firstCountryName (store : List Vote) (code : String) : String :=
  ((store.find? (fun v => v.countryCode == code)).map
    (fun v => v.countryName)).getD ""

/-- Descending order on vote counts, the `$sort: voteCount: -1` stage. -/
def aggGE (a b : AggregatedVote) : Prop :=
  b.voteCount ≤ a.voteCount

instance : DecidableRel aggGE := fun a b => Nat.decLe b.voteCount a.voteCount

instance : IsTotal AggregatedVote aggGE :=
  ⟨fun a b => Nat.le_total b.voteCount a.voteCount⟩

instance : IsTrans AggregatedVote aggGE :=
  ⟨fun _ _ _ h1 h2 => Nat.le_trans h2 h1⟩

/-- Translation of the aggregation pipeline in `getTopCountries`:
`$group` by `countryCode` with `$first` name and `$sum: 1`, `$sort` by
`voteCount` descending, `$limit: limit * 2`. -/
def aggregateVotes (store : List Vote) (limit : Nat) : List AggregatedVote :=
  (List.insertionSort aggGE
    ((firstOccur (store.map (fun v => v.countryCode))).map
      (fun c =>
        { _id := c
          countryName := firstCountryName store c
          voteCount := countVotes store c }))).take (limit * 2)

/-- The country directory as seen by the ranking and analytics paths: the
value `countriesService.getCountryByCode(code)` resolves to at the time of
the call (`none` models the absent / lookup-failure outcome). -/
def Directory : Type := String → Option CountryDetails

/-- Translation of the enrichment loop of `getTopCountries`: walk the
aggregation rows, break once `limit` entries are collected, skip rows whose
code does not resolve, and append the resolved details with the row's
`voteCount` attached. -/
def enrichLoop (dir : Directory) (limit : Nat) :
    List AggregatedVote → List CountryDetails → List CountryDetails
  | [], acc => acc
  | item :: rest, acc =>
    if limit ≤ acc.length then acc
    else
      match dir item._id with
      | none => enrichLoop dir limit rest acc
      | some d =>
        enrichLoop dir limit rest (acc ++ [{ d with voteCount := some item.voteCount }])

/-- The ranking computed on a cache miss (aggregation plus enrichment). -/
def computeTop (dir : Directory) (store : List Vote) (limit : Nat) :
    List CountryDetails :=
  enrichLoop dir limit (aggregateVotes store limit) []

/-- Observable cache / storage operations performed by `getTopCountries`. -/
inductive RankOp where
  | cacheGetTop (key : String)
  | storeAggregate
  | cacheSetTop (key : String) (value : List CountryDetails) (ttl : Nat)
deriving Repr, DecidableEq

/-- Result of a `getTopCountries` call: the returned list, the ranking-cache
entry after the call, and the operations performed in order. -/
structure TopResult where
  result : List CountryDetails
  cache : Option (List CountryDetails)
  ops : List RankOp
deriving Repr, DecidableEq

/-- Translation of `VotesService.getTopCountries`.  `cache` is the
cache-manager entry under `top_countries` (`none` = miss; note a cached empty
array is still truthy in the source, hence still a hit).  On a hit the cached
list is sliced to `limit`; on a miss the aggregation runs, the enrichment
loop builds the result, and the result is cached under the fixed key with the
5-minute TTL (300000 ms). -/
def getTopCountries (dir : Directory) (store : List Vote)
    (cache : Option (List CountryDetails)) (limit : Nat) : TopResult :=
  match cache with
  | some cached =>
    ⟨cached.take limit, some cached, [.cacheGetTop "top_countries"]⟩
  | none =>
    let topCountries := computeTop dir store limit
    ⟨topCountries, some topCountries,
      [.cacheGetTop "top_countries", .storeAggregate,
        .cacheSetTop "top_countries" topCountries 300000]⟩

/-- Restatement of the spec's description of the miss path of
`getTop(limit)` (spec section 4.2, steps 2-3): take the first `limit × 2`
sorted groups, then collect — in order — the groups whose code resolves,
attaching each group's vote count, and keep the first `limit` of them.  The
early-exit loop of the source is claimed (C2) to coincide with this
filter-then-truncate description. -/
def getTopSpecMiss (dir : Directory) (store : List Vote) (limit : Nat) :
    List CountryDetails :=
  ((aggregateVotes store limit).filterMap
    (fun item => (dir item._id).map
      (fun d => { d with voteCount := some item.voteCount }))).take limit

/-- Model of the JavaScript `Map` used by `getVotesByRegion`: an ordered
association list; `set key (get key || 0) + 1` updates the existing entry in
place or appends a new one at the end. -/
def bumpRegion : List (String × Nat) → String → List (String × Nat)
  | [], key => [(key, 1)]
  | p :: rest, key =>
    if p.1 == key then (p.1, p.2 + 1) :: rest else p :: bumpRegion rest key

/-- Value stored under a key in the ordered map (0 when absent, matching
`map.get(key) || 0`). -/
def valueOf : List (String × Nat) → String → Nat
  | [], _ => 0
  | p :: rest, k => if p.1 == k then p.2 else valueOf rest k

/-- The key under which a resolved vote is counted:
`countryDetails.subregion || countryDetails.region` — JavaScript `||` falls
back to `region` exactly when `subregion` is the empty string. -/
def regionKey (d : CountryDetails) : String :=
  if d.subregion == "" then d.region else d.subregion

/-- Translation of `VotesService.getVotesByRegion`: fold over all votes,
resolve each code through the directory, silently skip unresolved votes, and
bump the counter under `subregion || region` for resolved ones.  The final
`Array.from(map.entries())` is the association list itself. -/
def getVotesByRegion (dir : Directory) (store : List Vote) :
    List (String × Nat) :=
  store.foldl
    (fun m vote =>
      match dir vote.countryCode with
      | none => m
      | some d => bumpRegion m (regionKey d))
    []

/-- Total of the per-region counters returned by `getVotesByRegion`. -/
def sumVotes (m : List (String × Nat)) : Nat :=
  (m.map (fun p => p.2)).sum

/-- Number of votes whose country code the directory resolves. -/
def resolvedCount (dir : Directory) (store : List Vote) : Nat :=
  (store.filter (fun v => (dir v.countryCode).isSome)).length

/-- Number of resolved votes counted under a given region key. -/
def resolvedKeyCount (dir : Directory) (store : List Vote) (key : String) :
    Nat :=
  (store.filter (fun v =>
    match dir v.countryCode with
    | some d => regionKey d == key
    | none => false)).length

/-- Split a character list on a separator (keeping empty pieces), the shape
of splitting a string on `@` or `.`. -/
def splitChar (sep : Char) : List Char → List (List Char)
  | [] => [[]]
  | c :: rest =>
    let r := splitChar sep rest
    if c == sep then [] :: r
    else
      match r with
      | [] => [[c]]
      | h :: t => (c :: h) :: t

/-- Split a character list at the first occurrence of a separator. -/
def splitFirst (sep : Char) : List Char → Option (List Char × List Char)
  | [] => none
  | c :: rest =>
    if c == sep then some ([], rest)
    else (splitFirst sep rest).map (fun p => (c :: p.1, p.2))

/-- ASCII letter or digit. -/
def isAsciiAlphaNum (c : Char) : Bool :=
  c.isAlpha || c.isDigit

/-- Character allowed in the local part of an email by zod's email regular
expression (`[A-Z0-9_'+\-.]`, case-insensitive; code point 39 is the
apostrophe). -/
def emailLocalChar (c : Char) : Bool :=
  isAsciiAlphaNum c || c == '_' || c.toNat == 39 || c == '+' || c == '-' ||
    c == '.'

/-- Character allowed as the last character of the local part
(`[A-Z0-9_+\-]`). -/
def emailLocalEndChar (c : Char) : Bool :=
  isAsciiAlphaNum c || c == '_' || c == '+' || c == '-'

/-- No two consecutive dots anywhere (the regular expression's negative
lookahead). -/
def noDoubleDot : List Char → Bool
  | [] => true
  | [_] => true
  | a :: b :: rest => !(a == '.' && b == '.') && noDoubleDot (b :: rest)

/-- Local part: nonempty, every character from the local set, last character
from the restricted end set. -/
def emailLocalOk (lp : List Char) : Bool :=
  !lp.isEmpty && lp.all emailLocalChar &&
    (match lp.getLast? with
     | some c => emailLocalEndChar c
     | none => false)

/-- Domain label `[A-Z0-9][A-Z0-9-]*` (case-insensitive). -/
def emailLabelOk : List Char → Bool
  | [] => false
  | c :: rest => isAsciiAlphaNum c && rest.all (fun x => isAsciiAlphaNum x || x == '-')

/-- Domain: one or more labels, a dot, then a top-level part of at least two
letters (`([A-Z0-9][A-Z0-9-]*\.)+[A-Z]{2,}`). -/
def emailDomainOk (d : List Char) : Bool :=
  let parts := splitChar '.' d
  match parts.getLast? with
  | none => false
  | some tld =>
    decide (2 ≤ parts.length) && parts.dropLast.all emailLabelOk &&
      decide (2 ≤ tld.length) && tld.all (fun c => c.isAlpha)

/-- Model of zod's `.email()` validator: its email regular expression
requires a first character other than a dot, no consecutive dots, a local
part over `[A-Z0-9_'+\-.]` ending in `[A-Z0-9_+\-]`, one `@`, and a domain of
dot-separated labels ending in an alphabetic top-level part of length at
least two (all case-insensitive). -/
def zodEmailCheck (s : String) : Bool :=
  let cs := s.data
  (match cs with
   | [] => false
   | c :: _ => !(c == '.')) &&
  noDoubleDot cs &&
  (match splitChar '@' cs with
   | [lp, dom] => emailLocalOk lp && emailDomainOk dom
   | _ => false)

/-- Scheme character after the first: letter, digit, `+`, `-` or `.`. -/
def schemeChar (c : Char) : Bool :=
  isAsciiAlphaNum c || c == '+' || c == '-' || c == '.'

/-- Whether a scheme is one of the WHATWG special schemes that require an
authority (host) component. -/
def isSpecialScheme (scheme : List Char) : Bool :=
  let l := scheme.map lowerChar
  l == "http".data || l == "https".data || l == "ws".data ||
    l == "wss".data || l == "ftp".data

/-- Model of the WHATWG `URL` constructor check behind zod's `.url()`
validator, restricted to the fragment these claims exercise: the string must
carry a scheme (an ASCII letter followed by scheme characters) terminated by
a colon, and for the special network schemes the scheme must be followed by
`//` and a nonempty host. -/
def isValidURL (s : String) : Bool :=
  match splitFirst ':' s.data with
  | none => false
  | some (scheme, rest) =>
    (match scheme with
     | [] => false
     | c :: t => c.isAlpha && t.all schemeChar) &&
    (if isSpecialScheme scheme then
       match rest with
       | '/' :: '/' :: host =>
         (match host with
          | [] => false
          | h :: _ => !(h == '/') && !(h == '?'))
       | _ => false
     else true)

/-- Raw (unvalidated) request body reaching the zod validation pipe. -/
structure RawVoteInput where
  name : String
  email : String
  countryCode : String
  countryName : String
  flag : String
deriving Repr, DecidableEq

/-- A zod issue: the failing field and its configured message. -/
structure FieldIssue where
  field : String
  message : String
deriving Repr, DecidableEq

/-- Translation of `CreateVoteSchema` (create-vote.dto.ts): zod validates
every field, collecting per-field issues; the parse succeeds exactly when no
issue was produced, and on success the `.toUpperCase()` transform is applied
to `countryCode`.  String lengths are JavaScript `.length`; the inputs
settled here stay in the basic plane, where that agrees with `String.length`.
The bounds come from the shared constants (`VOTE_NAME_MIN_LENGTH = 2`,
`VOTE_NAME_MAX_LENGTH = 100`, `COUNTRY_CODE_LENGTH = 3`,
`COUNTRY_NAME_MIN_LENGTH = 2`). -/
def validateCreateVote (input : RawVoteInput) :
    Except (List FieldIssue) CreateVoteDto :=
  let issues :=
    (if input.name.length < 2 then
      [⟨"name", "Name must be at least 2 characters"⟩] else []) ++
    (if 100 < input.name.length then
      [⟨"name", "Name must not exceed 100 characters"⟩] else []) ++
    (if zodEmailCheck input.email then [] else
      [⟨"email", "Invalid email format"⟩]) ++
    (if input.countryCode.length == 3 then [] else
      [⟨"countryCode", "Country code must be 3 characters"⟩]) ++
    (if input.countryName.length < 2 then
      [⟨"countryName", "Country name must be at least 2 characters"⟩] else []) ++
    (if isValidURL input.flag then [] else
      [⟨"flag", "Flag must be a valid URL"⟩])
  if issues.isEmpty then
    .ok
      { name := input.name
        email := input.email
        countryCode := toUpperCase input.countryCode
        countryName := input.countryName
        flag := input.flag }
  else .error issues

/-- The property claimed of accepted country codes: exactly three uppercase
ASCII letters. -/
def isThreeUppercaseLetters (s : String) : Bool :=
  (s.length == 3) && s.data.all (fun c => 65 ≤ c.toNat && c.toNat ≤ 90)

/-- Descending order on the attached vote counts of returned entries (absent
counts read as 0). -/
def detGE (a b : CountryDetails) : Prop :=
  b.voteCount.getD 0 ≤ a.voteCount.getD 0

/-- The ranking-cache states reachable for the `top_countries` entry: empty
(after startup or an invalidation), or holding the result of some earlier
miss-path computation (the only writer of that key). -/
def cacheWF (cache : Option (List CountryDetails)) : Prop :=
  cache = none ∨ ∃ (dir : Directory) (store : List Vote) (limit : Nat),
    cache = some (computeTop dir store limit)

theorem toNat_ofNat_valid (n : Nat) (h : Nat.isValidChar n) :
    (Char.ofNat n).toNat = n := by
  simp [Char.ofNat, Char.toNat, Char.ofNatAux, h]
  rfl

theorem lowerChar_idem (c : Char) : lowerChar (lowerChar c) = lowerChar c := by
  by_cases h : 65 ≤ c.toNat ∧ c.toNat ≤ 90
  · have hv : Nat.isValidChar (c.toNat + 32) := by left; omega
    have ht : (Char.ofNat (c.toNat + 32)).toNat = c.toNat + 32 :=
      toNat_ofNat_valid _ hv
    unfold lowerChar
    rw [if_pos h, if_neg]
    rw [ht]; omega
  · unfold lowerChar
    rw [if_neg h, if_neg h]

theorem toLowerCase_idem (s : String) :
    toLowerCase (toLowerCase s) = toLowerCase s := by
  unfold toLowerCase
  have hd : (String.mk (s.data.map lowerChar)).data = s.data.map lowerChar :=
    rfl
  rw [hd, List.map_map]
  have hf : lowerChar ∘ lowerChar = lowerChar := funext lowerChar_idem
  rw [hf]

/-- Claim C9: the has-voted check is casing-insensitive — `hasVoted e` equals
`hasVoted (lowercase e)` for every store, and `hasVoted e` holds exactly when
the store contains a vote whose stored (normalized) email is `lowercase e`. -/
theorem hasVoted_caseInsensitive (store : List Vote) (email : String) :
    hasVoted store email = hasVoted store (toLowerCase email) ∧
    (hasVoted store email = true ↔
      ∃ v ∈ store, v.email = toLowerCase email) := by
  refine ⟨?_, ?_⟩
  · simp [hasVoted, toLowerCase_idem]
  · simp [hasVoted, List.find?_isSome]

/-- Claim C4: a successful `createVote` performs exactly one Vote Store write
and exactly one ranking-cache invalidation, in that order, and the new state
reflects exactly them; every failing call (duplicate pre-check, duplicate-key
rejection, or any other storage error) leaves the store and the ranking cache
unchanged and performs no side effect at all. -/
theorem createVote_sideEffects (dto : CreateVoteDto) (outcome : SaveOutcome)
    (st : VotesState) :
    (∀ vote, (createVote dto outcome st).res = .ok vote →
      (createVote dto outcome st).state.store = st.store ++ [vote] ∧
      (createVote dto outcome st).state.topCache = none ∧
      (createVote dto outcome st).effects =
        [.writeVote vote, .cacheDel "top_countries"]) ∧
    (∀ err, (createVote dto outcome st).res = .error err →
      (createVote dto outcome st).state = st ∧
      (createVote dto outcome st).effects = []) := by
  unfold createVote
  cases hf : st.store.find? (fun v => v.email == toLowerCase dto.email) with
  | some v => simp
  | none =>
    cases outcome with
    | ok =>
      refine ⟨?_, ?_⟩
      · intro vote hv
        simp only [Except.ok.injEq] at hv
        subst hv
        exact ⟨rfl, rfl, rfl⟩
      · intro err herr
        simp at herr
    | dupKey => simp
    | otherFailure msg => simp

/-- A `createVote` call never removes a vote from the store. -/
theorem mem_store_createVoteRun (dto : CreateVoteDto) (st : VotesState)
    (v : Vote) (hv : v ∈ st.store) :
    v ∈ (createVoteRun dto st).state.store := by
  unfold createVoteRun createVote
  cases hf : st.store.find? (fun w => w.email == toLowerCase dto.email) with
  | some w => exact hv
  | none =>
    cases houtcome : mongoSave st.store (toLowerCase dto.email) with
    | ok => exact List.mem_append_left _ hv
    | dupKey => exact hv
    | otherFailure msg => exact hv

/-- No sequence of `createVote` calls removes a vote from the store. -/
theorem mem_store_runVotes (dtos : List CreateVoteDto) (st : VotesState)
    (v : Vote) (hv : v ∈ st.store) : v ∈ (runVotes dtos st).store := by
  induction dtos generalizing st with
  | nil => exact hv
  | cons d rest ih =>
    exact ih _ (mem_store_createVoteRun d st v hv)

theorem createVote_sideEffects_witness :
    (createVote ⟨"J", "A@X.co", "ARG", "Argentina", "u"⟩ SaveOutcome.ok
        ⟨[], none⟩).state.store =
      [] ++ [⟨"J", "a@x.co", "ARG", "Argentina", "u"⟩] ∧
    (createVote ⟨"J", "A@X.co", "ARG", "Argentina", "u"⟩
        (SaveOutcome.otherFailure "boom") ⟨[], none⟩).effects = [] :=
  ⟨((createVote_sideEffects ⟨"J", "A@X.co", "ARG", "Argentina", "u"⟩
      SaveOutcome.ok ⟨[], none⟩).1
      ⟨"J", "a@x.co", "ARG", "Argentina", "u"⟩ (by rfl)).1,
   ((createVote_sideEffects ⟨"J", "A@X.co", "ARG", "Argentina", "u"⟩
      (SaveOutcome.otherFailure "boom") ⟨[], none⟩).2
      (VoteError.storageFailure "boom") (by rfl)).2⟩

/-- When the store already holds a vote with the caller's normalized email,
the `findOne` pre-check fires and `createVote` fails with the conflict. -/
theorem createVoteRun_conflict (dto : CreateVoteDto) (st : VotesState)
    (h : ∃ v ∈ st.store, v.email = toLowerCase dto.email) :
    (createVoteRun dto st).res = Except.error VoteError.conflictAlreadyVoted := by
  have hsome :
      (st.store.find? (fun v => v.email == toLowerCase dto.email)).isSome := by
    rw [List.find?_isSome]
    obtain ⟨v, hv, he⟩ := h
    exact ⟨v, hv, by simp [he]⟩
  obtain ⟨w, hw⟩ := Option.isSome_iff_exists.mp hsome
  unfold createVoteRun createVote
  rw [hw]

/-- Claim C1: with a previously unseen normalized email, `createVote`
succeeds (storing the lowercased email); afterwards, whatever further
sequence of `createVote` calls runs, any submission whose email lowercases to
the same normalized email fails with the duplicate-vote conflict and never
succeeds; and a storage-level duplicate-key rejection of the insert is
re-signalled as the same duplicate-vote conflict, never as a generic storage
error. -/
theorem createVote_uniqueEmail (st : VotesState) (dto : CreateVoteDto)
    (h : ∀ v ∈ st.store, v.email ≠ toLowerCase dto.email) :
    (∃ vote, (createVoteRun dto st).res = .ok vote ∧
       vote.email = toLowerCase dto.email ∧
       (createVoteRun dto st).state.store = st.store ++ [vote]) ∧
    (∀ (dtos : List CreateVoteDto) (dto2 : CreateVoteDto),
       toLowerCase dto2.email = toLowerCase dto.email →
       (createVoteRun dto2 (runVotes dtos (createVoteRun dto st).state)).res =
         Except.error VoteError.conflictAlreadyVoted) ∧
    (∀ (st2 : VotesState) (dto2 : CreateVoteDto),
       (createVote dto2 SaveOutcome.dupKey st2).res =
         Except.error VoteError.conflictAlreadyVoted) := by
  have hfind :
      st.store.find? (fun v => v.email == toLowerCase dto.email) = none := by
    rw [List.find?_eq_none]
    intro x hx
    simpa using h x hx
  have hsave : mongoSave st.store (toLowerCase dto.email) = .ok := by
    unfold mongoSave
    rw [if_neg]
    intro hc
    rw [List.any_eq_true] at hc
    obtain ⟨x, hx, hxe⟩ := hc
    exact h x hx (by simpa using hxe)
  have hrun : createVoteRun dto st =
      ⟨.ok ⟨dto.name, toLowerCase dto.email, dto.countryCode, dto.countryName,
          dto.flag⟩,
        ⟨st.store ++ [⟨dto.name, toLowerCase dto.email, dto.countryCode,
          dto.countryName, dto.flag⟩], none⟩,
        [.writeVote ⟨dto.name, toLowerCase dto.email, dto.countryCode,
          dto.countryName, dto.flag⟩, .cacheDel "top_countries"]⟩ := by
    unfold createVoteRun
    rw [hsave]
    unfold createVote
    rw [hfind]
  refine ⟨⟨_, by rw [hrun], rfl, by rw [hrun]⟩, ?_, ?_⟩
  · intro dtos dto2 h2
    have hv1 : (⟨dto.name, toLowerCase dto.email, dto.countryCode,
        dto.countryName, dto.flag⟩ : Vote) ∈ (createVoteRun dto st).state.store := by
      rw [hrun]
      exact List.mem_append_right _ (List.mem_singleton.mpr rfl)
    have hv2 : (⟨dto.name, toLowerCase dto.email, dto.countryCode,
        dto.countryName, dto.flag⟩ : Vote) ∈
        (runVotes dtos (createVoteRun dto st).state).store :=
      mem_store_runVotes _ _ _ hv1
    exact createVoteRun_conflict dto2 _ ⟨_, hv2, by simp [h2]⟩
  · intro st2 dto2
    unfold createVote
    cases hf : st2.store.find? (fun v => v.email == toLowerCase dto2.email) with
    | some w => rfl
    | none => rfl

theorem createVote_uniqueEmail_witness :
    (createVoteRun ⟨"M", "Maria@Mail.com", "COL", "Colombia", "u"⟩
        (runVotes [⟨"O", "other@mail.com", "PER", "Peru", "u"⟩]
          (createVoteRun ⟨"M", "maria@mail.com", "COL", "Colombia", "u"⟩
            ⟨[], none⟩).state)).res =
      Except.error VoteError.conflictAlreadyVoted :=
  (createVote_uniqueEmail ⟨[], none⟩
      ⟨"M", "maria@mail.com", "COL", "Colombia", "u"⟩ (by simp)).2.1
    [⟨"O", "other@mail.com", "PER", "Peru", "u"⟩]
    ⟨"M", "Maria@Mail.com", "COL", "Colombia", "u"⟩ (by rfl)

/-- Claim C7: for an external record with a missing capital (or an empty
capital array) the produced detail has `capital = "N/A"`, and with a missing
subregion it has `subregion = "N/A"`; when a capital is listed the first one
is taken; and both `getAllCountries` (on a fetch) and `getCountryByCode` (on
an uncached successful lookup) return exactly these mapped details.  The
`capital` and `subregion` fields of `CountryDetails` are total strings, so
the sentinel can never be `null`/absent. -/
theorem mapCountry_sentinel (c : Country) :
    ((c.capital = none ∨ c.capital = some []) →
      (mapCountryToDetails c).capital = "N/A") ∧
    (∀ cap rest, c.capital = some (cap :: rest) →
      (mapCountryToDetails c).capital = cap) ∧
    (c.subregion = none → (mapCountryToDetails c).subregion = "N/A") ∧
    (∀ s, c.subregion = some s → (mapCountryToDetails c).subregion = s) ∧
    (∀ (data : List Country),
      (getAllCountries (.ok data) none).1 =
        .ok (data.map mapCountryToDetails)) ∧
    (∀ (fetchAlpha : String → FetchResult (List Country))
       (cache : List (String × CountryDetails)) (code : String)
       (rest : List Country),
      cacheGet cache ("country_" ++ code) = none →
      fetchAlpha code = .ok (c :: rest) →
      (getCountryByCode fetchAlpha cache code).result =
        some (mapCountryToDetails c)) := by
  refine ⟨?_, ?_, ?_, ?_, ?_, ?_⟩
  · rintro (h | h) <;> simp [mapCountryToDetails, h]
  · intro cap rest h
    simp [mapCountryToDetails, h]
  · intro h
    simp [mapCountryToDetails, h]
  · intro s h
    simp [mapCountryToDetails, h]
  · intro data
    rfl
  · intro fetchAlpha cache code rest hmiss hfetch
    unfold getCountryByCode
    rw [hmiss, hfetch]

theorem mapCountry_sentinel_witness :
    (mapCountryToDetails ⟨"X", "XO", "XXX", none, "R", none, "f"⟩).capital =
      "N/A" ∧
    (mapCountryToDetails ⟨"X", "XO", "XXX", none, "R", none, "f"⟩).subregion =
      "N/A" ∧
    (getCountryByCode
        (fun _ => .ok [⟨"X", "XO", "XXX", none, "R", none, "f"⟩]) []
        "XXX").result =
      some (mapCountryToDetails ⟨"X", "XO", "XXX", none, "R", none, "f"⟩) :=
  ⟨(mapCountry_sentinel ⟨"X", "XO", "XXX", none, "R", none, "f"⟩).1
      (Or.inl rfl),
   (mapCountry_sentinel ⟨"X", "XO", "XXX", none, "R", none, "f"⟩).2.2.1 rfl,
   (mapCountry_sentinel ⟨"X", "XO", "XXX", none, "R", none, "f"⟩).2.2.2.2.2
      (fun _ => .ok [⟨"X", "XO", "XXX", none, "R", none, "f"⟩]) [] "XXX" []
      (by rfl) (by rfl)⟩

/-- Claim C10: the per-code cache never stores a negative result — a cache
hit returns the cached detail (never absent) without fetching; on a miss a
fresh external fetch always runs; an unresolvable code (zero matches or a
fetch failure) yields `none` and leaves the cache untouched; whenever the
call returns `none` the cache is unchanged; and the only way the cache
changes is by storing the successfully mapped record of a successful
fetch, which is also the returned value. -/
theorem getCountryByCode_neverCachesNegative
    (fetchAlpha : String → FetchResult (List Country))
    (cache : List (String × CountryDetails)) (code : String) :
    (∀ d, cacheGet cache ("country_" ++ code) = some d →
      getCountryByCode fetchAlpha cache code = ⟨some d, cache, false⟩) ∧
    (cacheGet cache ("country_" ++ code) = none →
      (getCountryByCode fetchAlpha cache code).fetched = true) ∧
    (cacheGet cache ("country_" ++ code) = none →
      (fetchAlpha code = .error () ∨ fetchAlpha code = .ok []) →
      (getCountryByCode fetchAlpha cache code).result = none ∧
      (getCountryByCode fetchAlpha cache code).cache = cache) ∧
    ((getCountryByCode fetchAlpha cache code).result = none →
      (getCountryByCode fetchAlpha cache code).cache = cache) ∧
    (∀ r rest, cacheGet cache ("country_" ++ code) = none →
      fetchAlpha code = .ok (r :: rest) →
      getCountryByCode fetchAlpha cache code =
        ⟨some (mapCountryToDetails r),
          cacheSet cache ("country_" ++ code) (mapCountryToDetails r),
          true⟩) := by
  refine ⟨?_, ?_, ?_, ?_, ?_⟩
  · intro d hd
    unfold getCountryByCode
    rw [hd]
  · intro hmiss
    unfold getCountryByCode
    rw [hmiss]
    cases hfa : fetchAlpha code with
    | error e => rfl
    | ok data => cases data <;> rfl
  · intro hmiss hfail
    unfold getCountryByCode
    rw [hmiss]
    cases hfail with
    | inl h => rw [h]; exact ⟨rfl, rfl⟩
    | inr h => rw [h]; exact ⟨rfl, rfl⟩
  · intro hnone
    unfold getCountryByCode at hnone ⊢
    cases hc : cacheGet cache ("country_" ++ code) with
    | some d => rfl
    | none =>
      cases hfa : fetchAlpha code with
      | error e => rfl
      | ok data =>
        cases data with
        | nil => rfl
        | cons r rest =>
          rw [hc, hfa] at hnone
          simp at hnone
  · intro r rest hmiss hfetch
    unfold getCountryByCode
    rw [hmiss, hfetch]

theorem getCountryByCode_neverCachesNegative_witness :
    getCountryByCode (fun _ => .error ())
        [("country_ARG",
          ⟨"ARG", "Argentina", "AR", "BA", "Americas", "SA", "u", none⟩)]
        "ARG" =
      ⟨some ⟨"ARG", "Argentina", "AR", "BA", "Americas", "SA", "u", none⟩,
        [("country_ARG",
          ⟨"ARG", "Argentina", "AR", "BA", "Americas", "SA", "u", none⟩)],
        false⟩ ∧
    (getCountryByCode (fun _ => .error ()) [] "PER").result = none ∧
    (getCountryByCode (fun _ => .error ()) [] "PER").cache = [] ∧
    getCountryByCode (fun _ => .ok [⟨"X", "XO", "XXX", none, "R", none, "f"⟩])
        [] "XXX" =
      ⟨some (mapCountryToDetails ⟨"X", "XO", "XXX", none, "R", none, "f"⟩),
        cacheSet [] "country_XXX"
          (mapCountryToDetails ⟨"X", "XO", "XXX", none, "R", none, "f"⟩),
        true⟩ :=
  ⟨(getCountryByCode_neverCachesNegative (fun _ => .error ())
      [("country_ARG",
        ⟨"ARG", "Argentina", "AR", "BA", "Americas", "SA", "u", none⟩)]
      "ARG").1
      ⟨"ARG", "Argentina", "AR", "BA", "Americas", "SA", "u", none⟩ (by rfl),
   ((getCountryByCode_neverCachesNegative (fun _ => .error ()) [] "PER").2.2.1
      (by rfl) (Or.inl rfl)).1,
   ((getCountryByCode_neverCachesNegative (fun _ => .error ()) [] "PER").2.2.1
      (by rfl) (Or.inl rfl)).2,
   (getCountryByCode_neverCachesNegative
      (fun _ => .ok [⟨"X", "XO", "XXX", none, "R", none, "f"⟩]) [] "XXX").2.2.2.2
      ⟨"X", "XO", "XXX", none, "R", none, "f"⟩ [] (by rfl) (by rfl)⟩

/-- The early-exit enrichment loop computes the truncated `filterMap` of the
aggregation rows: the source's break-at-`limit` loop and the spec's
collect-then-stop description coincide. -/
theorem enrichLoop_eq_filterMap (dir : Directory) (limit : Nat) :
    ∀ (l : List AggregatedVote) (acc : List CountryDetails),
      acc.length ≤ limit →
      enrichLoop dir limit l acc =
        acc ++ (l.filterMap (fun item => (dir item._id).map
          (fun d => { d with voteCount := some item.voteCount }))).take
            (limit - acc.length) := by
  intro l
  induction l with
  | nil => intro acc hacc; simp [enrichLoop]
  | cons item rest ih =>
    intro acc hacc
    unfold enrichLoop
    by_cases hl : limit ≤ acc.length
    · have hz : limit - acc.length = 0 := Nat.sub_eq_zero_of_le hl
      rw [if_pos hl, hz]
      simp
    · rw [if_neg hl]
      have hlt : acc.length < limit := Nat.lt_of_not_le hl
      cases hd : dir item._id with
      | none =>
        rw [ih acc hacc]
        simp [List.filterMap_cons, hd]
      | some d =>
        dsimp only
        have hacc1 : (acc ++ [{ d with voteCount := some item.voteCount }]).length ≤ limit := by
          rw [List.length_append]
          simpa using hlt
        rw [ih _ hacc1]
        rw [List.filterMap_cons, hd]
        simp only [Option.map_some']
        rw [List.append_assoc]
        congr 1
        have hsub : limit - acc.length = (limit -
            (acc ++ [{ d with voteCount := some item.voteCount }]).length) + 1 := by
          rw [List.length_append]
          simp only [List.length_singleton]
          omega
        rw [hsub, List.take_succ_cons]
        rfl

/-- The miss-path computation equals the spec's filter-then-truncate
description. -/
theorem computeTop_eq_spec (dir : Directory) (store : List Vote)
    (limit : Nat) :
    computeTop dir store limit = getTopSpecMiss dir store limit := by
  unfold computeTop getTopSpecMiss
  rw [enrichLoop_eq_filterMap dir limit (aggregateVotes store limit) []
    (Nat.zero_le _)]
  simp

/-- Claim C2: on a ranking-cache miss, `getTopCountries` runs the
aggregation (group by code, count, sort descending, keep `limit × 2`
groups), enriches the groups in order — skipping groups whose code does not
resolve, without counting them toward `limit`, and attaching each group's
vote count — stopping at `limit` collected entries; the collected result is
cached under the fixed `top_countries` key with the 5-minute (300000 ms) TTL
and returned. -/
theorem getTopCountries_missPath (dir : Directory) (store : List Vote)
    (limit : Nat) :
    getTopCountries dir store none limit =
      ⟨getTopSpecMiss dir store limit, some (getTopSpecMiss dir store limit),
        [.cacheGetTop "top_countries", .storeAggregate,
          .cacheSetTop "top_countries" (getTopSpecMiss dir store limit)
            300000]⟩ := by
  unfold getTopCountries
  rw [computeTop_eq_spec]

/-- Claim C6: on a cache hit `getTopCountries` returns the first `limit`
cached entries, touching neither the Vote Store nor the cache entry; hence a
second caller inside the TTL window, after a first computation with a
smaller limit, receives `min limit₂ (cached length)` entries — witnessed
below to be strictly fewer than requested even though at least `limit₂` vote
groups exist in the store. -/
theorem getTopCountries_cacheHit (dir dir2 : Directory)
    (store store2 : List Vote) (cached : List CountryDetails)
    (limit limit1 limit2 : Nat) :
    getTopCountries dir store (some cached) limit =
      ⟨cached.take limit, some cached, [.cacheGetTop "top_countries"]⟩ ∧
    (getTopCountries dir2 store2
        (getTopCountries dir store none limit1).cache limit2).result.length =
      min limit2 (getTopCountries dir store none limit1).result.length ∧
    (∃ (dirE : Directory) (storeE : List Vote) (l1 l2 : Nat),
      l1 < l2 ∧
      (getTopCountries dirE storeE
          (getTopCountries dirE storeE none l1).cache l2).result.length < l2 ∧
      l2 ≤ (firstOccur (storeE.map (fun v => v.countryCode))).length) := by
  refine ⟨rfl, ?_, ?_⟩
  · show ((computeTop dir store limit1).take limit2).length = _
    rw [List.length_take]
    rfl
  · refine ⟨fun c => some ⟨c, c, c, "cap", "R", "S", "u", none⟩,
      [⟨"a", "a@x.co", "AAA", "A", "u"⟩, ⟨"b", "b@x.co", "BBB", "B", "u"⟩],
      1, 2, by decide, by decide, by decide⟩

theorem mem_of_mem_firstOccurAux :
    ∀ (l seen : List String) (x : String), x ∈ firstOccurAux l seen → x ∈ l := by
  intro l
  induction l with
  | nil => intro seen x h; simp [firstOccurAux] at h
  | cons c rest ih =>
    intro seen x h
    unfold firstOccurAux at h
    by_cases hc : c ∈ seen
    · rw [if_pos hc] at h
      exact List.mem_cons_of_mem _ (ih _ _ h)
    · rw [if_neg hc] at h
      rcases List.mem_cons.mp h with h1 | h2
      · exact h1 ▸ List.mem_cons_self _ _
      · exact List.mem_cons_of_mem _ (ih _ _ h2)

/-- Every code that appears as a group appears on some vote, so its group
count is at least one. -/
theorem countVotes_pos (store : List Vote) (c : String)
    (h : c ∈ store.map (fun v => v.countryCode)) : 1 ≤ countVotes store c := by
  obtain ⟨v, hv, hvc⟩ := List.mem_map.mp h
  have hf : v ∈ store.filter (fun v => v.countryCode == c) :=
    List.mem_filter.mpr ⟨hv, by simp [hvc]⟩
  have := List.length_pos.mpr (List.ne_nil_of_mem hf)
  exact this

/-- Every aggregation row carries a positive vote count. -/
theorem aggregate_voteCount_pos (store : List Vote) (limit : Nat)
    (item : AggregatedVote) (h : item ∈ aggregateVotes store limit) :
    1 ≤ item.voteCount := by
  unfold aggregateVotes at h
  have h1 := List.mem_of_mem_take h
  have h2 := (List.perm_insertionSort aggGE _).mem_iff.mp h1
  obtain ⟨c, hc, hitem⟩ := List.mem_map.mp h2
  have hcm : c ∈ store.map (fun v => v.countryCode) :=
    mem_of_mem_firstOccurAux _ _ _ hc
  rw [← hitem]
  exact countVotes_pos store c hcm

/-- The aggregation output is sorted by vote count, descending. -/
theorem aggregate_sorted (store : List Vote) (limit : Nat) :
    List.Pairwise aggGE (aggregateVotes store limit) := by
  unfold aggregateVotes
  exact List.Pairwise.sublist (List.take_sublist _ _)
    (List.sorted_insertionSort aggGE _)

/-- Every entry of the miss-path result carries the positive vote count of
its aggregation row. -/
theorem computeTop_voteCount_pos (dir : Directory) (store : List Vote)
    (limit : Nat) (d : CountryDetails)
    (h : d ∈ computeTop dir store limit) :
    ∃ n, d.voteCount = some n ∧ 1 ≤ n := by
  rw [computeTop_eq_spec] at h
  unfold getTopSpecMiss at h
  have h1 := List.mem_of_mem_take h
  obtain ⟨item, hitem, hf⟩ := List.mem_filterMap.mp h1
  obtain ⟨d0, _, hg⟩ := Option.map_eq_some'.mp hf
  refine ⟨item.voteCount, ?_, aggregate_voteCount_pos store limit item hitem⟩
  rw [← hg]

/-- The miss-path result is sorted by the attached vote counts,
descending. -/
theorem computeTop_sortedDesc (dir : Directory) (store : List Vote)
    (limit : Nat) : List.Pairwise detGE (computeTop dir store limit) := by
  rw [computeTop_eq_spec]
  unfold getTopSpecMiss
  apply List.Pairwise.sublist (List.take_sublist _ _)
  refine List.Pairwise.filterMap _ ?_ (aggregate_sorted store limit)
  intro a a' hR b hb b' hb'
  rw [Option.mem_def] at hb hb'
  obtain ⟨d0, _, hg⟩ := Option.map_eq_some'.mp hb
  obtain ⟨d0', _, hg'⟩ := Option.map_eq_some'.mp hb'
  unfold detGE
  rw [← hg, ← hg']
  exact hR

/-- The miss-path result never exceeds `limit` entries. -/
theorem computeTop_length_le (dir : Directory) (store : List Vote)
    (limit : Nat) : (computeTop dir store limit).length ≤ limit := by
  rw [computeTop_eq_spec]
  unfold getTopSpecMiss
  rw [List.length_take]
  exact min_le_left _ _

/-- Claim C3: for every limit and every reachable cache state (a miss, or a
hit on the result of an earlier computation), `getTopCountries` returns at
most `limit` entries, every returned entry carries a vote count of at least
one, and the entries are sorted by vote count, descending. -/
theorem getTop_resultBounds (dir : Directory) (store : List Vote)
    (cache : Option (List CountryDetails)) (limit : Nat) (h : cacheWF cache) :
    (getTopCountries dir store cache limit).result.length ≤ limit ∧
    (∀ d ∈ (getTopCountries dir store cache limit).result,
      ∃ n, d.voteCount = some n ∧ 1 ≤ n) ∧
    List.Pairwise detGE (getTopCountries dir store cache limit).result := by
  cases cache with
  | none =>
    refine ⟨computeTop_length_le dir store limit, ?_, ?_⟩
    · intro d hd
      exact computeTop_voteCount_pos dir store limit d hd
    · exact computeTop_sortedDesc dir store limit
  | some cached =>
    rcases h with h | ⟨dir0, store0, limit0, heq⟩
    · exact absurd h (by simp)
    · have hc : cached = computeTop dir0 store0 limit0 := by injection heq
      subst hc
      refine ⟨?_, ?_, ?_⟩
      · show ((computeTop dir0 store0 limit0).take limit).length ≤ limit
        rw [List.length_take]
        exact min_le_left _ _
      · intro d hd
        exact computeTop_voteCount_pos dir0 store0 limit0 d
          (List.mem_of_mem_take hd)
      · exact List.Pairwise.sublist (List.take_sublist _ _)
          (computeTop_sortedDesc dir0 store0 limit0)

theorem getTop_resultBounds_witness :
    (getTopCountries (fun c => some ⟨c, c, c, "cap", "R", "S", "u", none⟩)
        [⟨"a", "a@x.co", "AAA", "A", "u"⟩, ⟨"b", "b@x.co", "AAA", "A", "u"⟩,
          ⟨"c", "c@x.co", "BBB", "B", "u"⟩] none 2).result.length ≤ 2 ∧
    (∀ d ∈ (getTopCountries (fun c => some ⟨c, c, c, "cap", "R", "S", "u", none⟩)
        [⟨"a", "a@x.co", "AAA", "A", "u"⟩, ⟨"b", "b@x.co", "AAA", "A", "u"⟩,
          ⟨"c", "c@x.co", "BBB", "B", "u"⟩] none 2).result,
      ∃ n, d.voteCount = some n ∧ 1 ≤ n) ∧
    List.Pairwise detGE
      (getTopCountries (fun c => some ⟨c, c, c, "cap", "R", "S", "u", none⟩)
        [⟨"a", "a@x.co", "AAA", "A", "u"⟩, ⟨"b", "b@x.co", "AAA", "A", "u"⟩,
          ⟨"c", "c@x.co", "BBB", "B", "u"⟩] none 2).result :=
  getTop_resultBounds (fun c => some ⟨c, c, c, "cap", "R", "S", "u", none⟩)
    [⟨"a", "a@x.co", "AAA", "A", "u"⟩, ⟨"b", "b@x.co", "AAA", "A", "u"⟩,
      ⟨"c", "c@x.co", "BBB", "B", "u"⟩] none 2 (Or.inl rfl)

theorem valueOf_bumpRegion_self (m : List (String × Nat)) (key : String) :
    valueOf (bumpRegion m key) key = valueOf m key + 1 := by
  induction m with
  | nil => simp [bumpRegion, valueOf]
  | cons p rest ih =>
    unfold bumpRegion
    by_cases hp : p.1 == key
    · rw [if_pos hp]
      unfold valueOf
      rw [if_pos hp, if_pos hp]
    · rw [if_neg hp]
      unfold valueOf
      rw [if_neg hp, if_neg hp]
      exact ih

theorem valueOf_bumpRegion_other (m : List (String × Nat)) (key k : String)
    (hne : k ≠ key) : valueOf (bumpRegion m key) k = valueOf m k := by
  induction m with
  | nil =>
    simp only [bumpRegion, valueOf]
    rw [if_neg]
    simp [Ne.symm hne]
  | cons p rest ih =>
    unfold bumpRegion
    by_cases hp : p.1 == key
    · rw [if_pos hp]
      have hp1 : p.1 = key := by simpa using hp
      have hk : ¬(p.1 == k) = true := by simp [hp1, Ne.symm hne]
      unfold valueOf
      rw [if_neg hk, if_neg hk]
    · rw [if_neg hp]
      unfold valueOf
      by_cases hk : p.1 == k
      · rw [if_pos hk, if_pos hk]
      · rw [if_neg hk, if_neg hk]
        exact ih

theorem sumVotes_bumpRegion (m : List (String × Nat)) (key : String) :
    sumVotes (bumpRegion m key) = sumVotes m + 1 := by
  induction m with
  | nil => simp [bumpRegion, sumVotes]
  | cons p rest ih =>
    unfold bumpRegion
    by_cases hp : p.1 == key
    · rw [if_pos hp]
      unfold sumVotes at *
      simp only [List.map_cons, List.sum_cons]
      omega
    · rw [if_neg hp]
      unfold sumVotes at *
      simp only [List.map_cons, List.sum_cons, ih]
      omega

theorem byRegion_valueOf_aux (dir : Directory) :
    ∀ (store : List Vote) (m : List (String × Nat)) (k : String),
      valueOf (store.foldl
        (fun m vote =>
          match dir vote.countryCode with
          | none => m
          | some d => bumpRegion m (regionKey d)) m) k =
      valueOf m k + resolvedKeyCount dir store k := by
  intro store
  induction store with
  | nil => intro m k; simp [resolvedKeyCount]
  | cons v rest ih =>
    intro m k
    rw [List.foldl_cons]
    cases hd : dir v.countryCode with
    | none =>
      rw [ih]
      unfold resolvedKeyCount
      rw [List.filter_cons]
      simp [hd]
    | some d =>
      rw [ih]
      unfold resolvedKeyCount
      rw [List.filter_cons]
      by_cases hk : k = regionKey d
      · subst hk
        rw [valueOf_bumpRegion_self]
        simp [hd]
        omega
      · rw [valueOf_bumpRegion_other _ _ _ hk]
        have : (regionKey d == k) = false := by simp [Ne.symm hk]
        simp [hd, this]

theorem byRegion_sum_aux (dir : Directory) :
    ∀ (store : List Vote) (m : List (String × Nat)),
      sumVotes (store.foldl
        (fun m vote =>
          match dir vote.countryCode with
          | none => m
          | some d => bumpRegion m (regionKey d)) m) =
      sumVotes m + resolvedCount dir store := by
  intro store
  induction store with
  | nil => intro m; simp [resolvedCount]
  | cons v rest ih =>
    intro m
    rw [List.foldl_cons]
    cases hd : dir v.countryCode with
    | none =>
      rw [ih]
      unfold resolvedCount
      rw [List.filter_cons]
      simp [hd]
    | some d =>
      rw [ih, sumVotes_bumpRegion]
      unfold resolvedCount
      rw [List.filter_cons]
      simp [hd]
      omega

/-- Claim C5: `getVotesByRegion` counts, under the key
`subregion || region`, exactly the votes whose country code the directory
resolves; unresolved votes are silently excluded, so the breakdown total
equals the number of resolvable votes, never exceeds `getTotalVotes`, and
can be strictly smaller. -/
theorem getVotesByRegion_breakdown (dir : Directory) (store : List Vote) :
    (∀ key, valueOf (getVotesByRegion dir store) key =
      resolvedKeyCount dir store key) ∧
    sumVotes (getVotesByRegion dir store) = resolvedCount dir store ∧
    sumVotes (getVotesByRegion dir store) ≤ getTotalVotes store ∧
    (∃ (dir2 : Directory) (store2 : List Vote),
      sumVotes (getVotesByRegion dir2 store2) < getTotalVotes store2) := by
  have hsum : sumVotes (getVotesByRegion dir store) =
      resolvedCount dir store := by
    unfold getVotesByRegion
    rw [byRegion_sum_aux]
    simp [sumVotes]
  refine ⟨?_, hsum, ?_, ?_⟩
  · intro key
    unfold getVotesByRegion
    rw [byRegion_valueOf_aux]
    simp [valueOf]
  · rw [hsum]
    exact List.length_filter_le _ _
  · exact ⟨fun _ => none, [⟨"a", "a@x.co", "AAA", "A", "u"⟩], by decide⟩

/-- Claim C8 counterexample: the schema accepts a `countryCode` that is not
three uppercase letters.  `"col"` is lowercase, yet the parse succeeds (and
merely uppercases the code), because the zod chain
`z.string().length(3).toUpperCase()` only checks the length — the
`.toUpperCase()` is a transform, not a constraint. -/
theorem createVoteSchema_counterexample :
    validateCreateVote
        ⟨"John Doe", "john@example.com", "col", "Colombia",
          "https://flagcdn.com/co.svg"⟩ =
      .ok ⟨"John Doe", "john@example.com", "COL", "Colombia",
        "https://flagcdn.com/co.svg"⟩ ∧
    isThreeUppercaseLetters "col" = false := by
  exact ⟨by rfl, by rfl⟩

/-- Claim C8 (amended): the schema accepts an input exactly when the name has
2 to 100 characters, the email passes the zod email format, the country code
has exactly 3 characters (of any case or kind — it is uppercased on
acceptance, not required to be uppercase letters), the country name has at
least 2 characters, and the flag is a well-formed URL; on success the parsed
payload is the input with the code uppercased, and on failure the issue list
is nonempty and contains the failing fields' configured messages. -/
theorem createVoteSchema_accepts (input : RawVoteInput) :
    ((validateCreateVote input).isOk = true ↔
      (2 ≤ input.name.length ∧ input.name.length ≤ 100 ∧
        zodEmailCheck input.email = true ∧ input.countryCode.length = 3 ∧
        2 ≤ input.countryName.length ∧ isValidURL input.flag = true)) ∧
    (∀ dto, validateCreateVote input = .ok dto →
      dto = ⟨input.name, input.email, toUpperCase input.countryCode,
        input.countryName, input.flag⟩) ∧
    (∀ issues, validateCreateVote input = .error issues → issues ≠ []) ∧
    (zodEmailCheck input.email = false →
      ∀ issues, validateCreateVote input = .error issues →
        (⟨"email", "Invalid email format"⟩ : FieldIssue) ∈ issues) ∧
    (input.countryCode.length ≠ 3 →
      ∀ issues, validateCreateVote input = .error issues →
        (⟨"countryCode", "Country code must be 3 characters"⟩ : FieldIssue) ∈
          issues) := by
  by_cases h1 : input.name.length < 2 <;>
    by_cases h2 : 100 < input.name.length <;>
      by_cases h3 : zodEmailCheck input.email = true <;>
        by_cases h4 : input.countryCode.length = 3 <;>
          by_cases h5 : input.countryName.length < 2 <;>
            by_cases h6 : isValidURL input.flag = true <;>
              simp [validateCreateVote, Except.isOk, Except.toBool, h1, h2,
                  h3, h4, h5, h6] <;>
                omega

theorem createVoteSchema_accepts_witness :
    (validateCreateVote
        ⟨"Jo", "a@b.co", "ARG", "Argentina", "https://x.co/f.svg"⟩).isOk =
      true ∧
    (⟨"email", "Invalid email format"⟩ : FieldIssue) ∈
      ([⟨"email", "Invalid email format"⟩] : List FieldIssue) :=
  ⟨(createVoteSchema_accepts
      ⟨"Jo", "a@b.co", "ARG", "Argentina", "https://x.co/f.svg"⟩).1.mpr
      ⟨by decide, by decide, by decide, by decide, by decide, by decide⟩,
   (createVoteSchema_accepts
      ⟨"Jo", "not-an-email", "ARG", "Argentina", "https://x.co/f.svg"⟩).2.2.2.1
      (by decide) [⟨"email", "Invalid email format"⟩] (by rfl)⟩

end CountryVotes
